import Mathlib

/-!
Shallow embedding of `nport/nport.py` (python-nport): n-port parameter
matrices (Z, Y, S, T, H, G, ABCD) with type/impedance bookkeeping, and
frequency sweeps with interpolation and frequency-aligned arithmetic.

Matrix entries live in a generic field `K` (instantiated at `ℚ` for
concrete evaluations; the Python code uses complex floats, and every
statement proved here is generic in the field, so it covers `ℂ`).
Frequencies are modelled as `ℚ`.  Fallible Python code (raised
exceptions) is modelled with `Except String`.
-/

namespace Nport

/-- The parameter matrix types `Z = 'Z'`, `Y = 'Y'`, `S = 'S'`, `T = 'T'`,
`H = 'H'`, `G = 'G'`, `ABCD = 'ABCD'` from the top of `nport.py`. -/
inductive PType where
  | Z | Y | S | T | H | G | ABCD
deriving DecidableEq, Repr

/-- `NPortMatrixBase._z0test(type, z0)`: for S/T types a missing `z0`
defaults to `50.0`; for all other types supplying a `z0` raises
`ValueError`. -/
def z0test {K : Type} [Field K] (t : PType) (z0 : Option K) : Except String (Option K) :=
  if t = PType.S ∨ t = PType.T then
    match z0 with
    | none => Except.ok (some 50)
    | some w => Except.ok (some w)
  else
    match z0 with
    | none => Except.ok none
    | some _ => Except.error "the specified n-port representation does not require a reference impedance"

/-- `NPortMatrixBase.convert_z0test(type, z0)`: resolve the target `z0` for a
conversion.  For S/T targets a missing `z0` becomes the matrix own impedance
when the matrix is S/T-typed, else `50.0`; for other targets a supplied `z0`
raises `ValueError`. -/
def convert_z0test {K : Type} [Field K] (selfType : PType) (selfZ0 : Option K)
    (t : PType) (z0 : Option K) : Except String (Option K) :=
  if t = PType.S ∨ t = PType.T then
    match z0 with
    | none =>
        if selfType = PType.S ∨ selfType = PType.T then Except.ok selfZ0
        else Except.ok (some 50)
    | some w => Except.ok (some w)
  else
    match z0 with
    | none => Except.ok none
    | some _ => Except.error "the specified n-port representation does not require a reference impedance"

/-- An `NPortMatrix`: a square complex matrix together with its parameter
type tag and optional reference impedance (the `type` and `z0` attributes
set by `NPortMatrixBase.__new__`). -/
structure NPortMatrix (n : ℕ) (K : Type) where
  mat : Matrix (Fin n) (Fin n) K
  ptype : PType
  z0 : Option K

/-- The constructor `NPortMatrix(matrix, type, z0)`: the matrix-square and
type-membership checks hold by construction here (`Fin n` indexing and the
`PType` enumeration); `_z0test` validates the impedance. -/
def mkNPortMatrix {K : Type} [Field K] {n : ℕ} (mat : Matrix (Fin n) (Fin n) K)
    (t : PType) (z0 : Option K) : Except String (NPortMatrix n K) :=
  (z0test t z0).map fun z => ⟨mat, t, z⟩

/-- Arithmetic on a `None` impedance (e.g. `self.z0` of a matrix that was
never given one) raises `TypeError` in Python. -/
def expectZ0 {K : Type} (z0 : Option K) : Except String K :=
  match z0 with
  | some w => Except.ok w
  | none => Except.error "TypeError: unsupported operand type for NoneType"

/-- `np.linalg.inv`, written with the explicit field formula
`A⁻¹ = (det A)⁻¹ • adjugate A` so that it is computable.  Over a field it
agrees with Mathlib `Inv.inv` on matrices (`minv_eq_inv`). -/
def minv {K : Type} [Field K] {n : ℕ} (A : Matrix (Fin n) (Fin n) K) :
    Matrix (Fin n) (Fin n) K :=
  A.det⁻¹ • A.adjugate

theorem minv_eq_inv {K : Type} [Field K] {n : ℕ} (A : Matrix (Fin n) (Fin n) K) :
    minv A = A⁻¹ := by
  rw [minv, Matrix.inv_def, Ring.inverse_eq_inv]

/-- `NPortMatrix.renormalize(z0)`: requires an S-typed matrix; a no-op when
`z0` equals the current impedance; otherwise with
`r = (z0 - self.z0) / (z0 + self.z0)` returns
`np.dot(self - idty * r, np.linalg.inv(idty - r * self))` tagged with `z0`. -/
def NPortMatrix.renormalize {K : Type} [Field K] [DecidableEq K] {n : ℕ} (M : NPortMatrix n K)
    (z0 : K) : Except String (NPortMatrix n K) :=
  if M.ptype ≠ PType.S then Except.error "AssertionError: self.type == S"
  else if some z0 = M.z0 then Except.ok M
  else do
    let w ← expectZ0 M.z0
    let r : K := (z0 - w) / (z0 + w)
    mkNPortMatrix ((M.mat - r • (1 : Matrix (Fin n) (Fin n) K)) * minv (1 - r • M.mat))
      M.ptype (some z0)

/-- `NPortMatrix.convert(type, z0)`: conversion between the Z, Y and S
representations, following the source branch by branch.  ABCD/T targets and
unknown targets raise `TypeError`; a source type outside {Z, Y, S} leaves the
local variable `result` unbound in Python (`NameError`). -/
def NPortMatrix.convert {K : Type} [Field K] [DecidableEq K] {n : ℕ} (M : NPortMatrix n K)
    (t : PType) (z0arg : Option K) : Except String (NPortMatrix n K) := do
  let z0 ← convert_z0test M.ptype M.z0 t z0arg
  if t = PType.ABCD ∨ t = PType.T then
    Except.error "Cannot convert an NPort to ABCD or T parameter representation. Convert to a TwoNPort first"
  else if ¬ (t = PType.Z ∨ t = PType.Y ∨ t = PType.S) then
    Except.error "Unknown n-port parameter type."
  else
    match M.ptype, t with
    | PType.S, PType.Z => do
        let w ← expectZ0 M.z0
        mkNPortMatrix (w • ((2 : K) • minv (1 - M.mat) - 1)) t z0
    | PType.S, PType.Y => do
        let w ← expectZ0 M.z0
        mkNPortMatrix (w⁻¹ • ((2 : K) • minv (1 + M.mat) - 1)) t z0
    | PType.S, PType.S =>
        if z0 = M.z0 then mkNPortMatrix M.mat t z0
        else do
          let v ← expectZ0 z0
          M.renormalize v
    | PType.Z, PType.S => do
        let v ← expectZ0 z0
        mkNPortMatrix (1 - (2 : K) • minv (1 + v⁻¹ • M.mat)) t z0
    | PType.Z, PType.Y => mkNPortMatrix (minv M.mat) t z0
    | PType.Z, PType.Z => mkNPortMatrix M.mat t z0
    | PType.Y, PType.S => do
        let v ← expectZ0 z0
        mkNPortMatrix ((2 : K) • minv (1 + v • M.mat) - 1) t z0
    | PType.Y, PType.Z => mkNPortMatrix (minv M.mat) t z0
    | PType.Y, PType.Y => mkNPortMatrix M.mat t z0
    | _, _ => Except.error "NameError: name result is not defined"

/-- An entry of the `portsets` argument of `recombine`: either a single
signed port index (an `int` in Python) or a pair of port indices
(a 2-tuple in Python). -/
inductive PortSpec where
  | single (p : ℤ)
  | pair (p q : ℤ)

/-- Python list item assignment `row[i] = v`: a negative index wraps around
(`row[-1]` is the last element); an index out of `[-len, len)` raises
`IndexError`, which `recombine` catches and re-raises with the message below. -/
def pySet {K : Type} (l : List K) (i : ℤ) (v : K) : Except String (List K) :=
  let j : ℤ := if i < 0 then i + l.length else i
  if h : 0 ≤ j ∧ j < l.length then Except.ok (l.set j.toNat v)
  else Except.error "specified port number is higher than number of ports"

/-- One iteration of the row-building loop in `NPortMatrix.recombine`: start
from a row of zeros; for a pair `(p, q)` set `row[p-1] = 1` then
`row[q-1] = -1`; for an int, `assert ports != 0`, then set `row[p-1] = 1`
for positive `p` and `row[-p-1] = -1` for negative `p`. -/
def buildRow (K : Type) [Field K] (nports : ℕ) : PortSpec → Except String (List K)
  | PortSpec.pair p q => do
      let r1 ← pySet (List.replicate nports (0 : K)) (p - 1) 1
      pySet r1 (q - 1) (-1)
  | PortSpec.single p =>
      if p = 0 then Except.error "AssertionError: ports != 0"
      else if 0 < p then pySet (List.replicate nports (0 : K)) (p - 1) 1
      else pySet (List.replicate nports (0 : K)) (-p - 1) (-1)

/-- `NPortMatrix.recombine(portsets)`: requires an impedance (Z) matrix;
builds the transform matrix `m` row by row and returns
`m * self * m.T` with the same type and impedance. -/
def NPortMatrix.recombine {K : Type} [Field K] {n : ℕ} (M : NPortMatrix n K)
    (portsets : List PortSpec) : Except String (NPortMatrix portsets.length K) :=
  if M.ptype ≠ PType.Z then Except.error "AssertionError: self.type == IMPEDANCE"
  else do
    let rows ← portsets.mapM (buildRow K n)
    let m : Matrix (Fin portsets.length) (Fin n) K :=
      Matrix.of fun i j => (rows.getD i.1 []).getD j.1 0
    mkNPortMatrix (m * M.mat * m.transpose) M.ptype M.z0

/-- The transform matrix as the spec describes it: one row per entry of
`portSpecs`; a signed-index entry puts a single `±1` in the referenced
column; a pair `(p, q)` puts `+1` at column `p` and `-1` at column `q`
(the `q` assignment being the later one when the columns coincide). -/
def specRow {K : Type} [Field K] (nports : ℕ) : PortSpec → Fin nports → K
  | PortSpec.single p => fun j =>
      if (j.1 : ℤ) = |p| - 1 then (if 0 < p then 1 else -1) else 0
  | PortSpec.pair p q => fun j =>
      if (j.1 : ℤ) = q - 1 then -1 else if (j.1 : ℤ) = p - 1 then 1 else 0

/-- The whole spec-side transform matrix of shape `len(portSpecs) × ports`. -/
def specMatrix {K : Type} [Field K] (nports : ℕ) (specs : List PortSpec) :
    Matrix (Fin specs.length) (Fin nports) K :=
  Matrix.of fun i j => specRow nports (specs.get i) j

/-- A `portsets` entry that references existing ports only: pairs use
1-based ports `1 ≤ p ≤ n`; single entries are nonzero with `|p| ≤ n`. -/
def validSpec (nports : ℕ) : PortSpec → Prop
  | PortSpec.single p => p ≠ 0 ∧ p.natAbs ≤ nports
  | PortSpec.pair p q => 1 ≤ p ∧ p ≤ (nports : ℤ) ∧ 1 ≤ q ∧ q ≤ (nports : ℤ)

/-- A `portsets` entry on which the source raises: a single index that is
`0` or out of range, or a pair with a component beyond the port count. -/
def badSpec (nports : ℕ) : PortSpec → Prop
  | PortSpec.single p => p = 0 ∨ (nports : ℤ) < |p|
  | PortSpec.pair p q => (nports : ℤ) < p ∨ (nports : ℤ) < q

theorem mapM_ok_of_forall {α β : Type} {f : α → Except String β} {g : α → β} :
    ∀ {l : List α}, (∀ a ∈ l, f a = Except.ok (g a)) → l.mapM f = Except.ok (l.map g)
  | [], _ => rfl
  | x :: t, h => by
    rw [List.mapM_cons, h x (by simp), mapM_ok_of_forall (fun a ha => h a (by simp [ha]))]
    rfl

theorem mapM_error_of_mem {α β : Type} {f : α → Except String β} {a : α} :
    ∀ {l : List α}, a ∈ l → (∃ e, f a = Except.error e) →
      ∃ e, l.mapM f = Except.error e := by
  intro l
  induction l with
  | nil => intro h; cases h
  | cons x t ih =>
    intro hmem ⟨e, he⟩
    rw [List.mapM_cons]
    rcases List.mem_cons.1 hmem with hx | ht
    · subst hx
      rw [he]
      exact ⟨e, rfl⟩
    · cases hfx : f x with
      | error e2 => exact ⟨e2, rfl⟩
      | ok b =>
        obtain ⟨e3, he3⟩ := ih ht ⟨e, he⟩
        rw [he3]
        exact ⟨e3, rfl⟩

/-- The row the code builds for a valid entry, written as explicit list
updates (used to relate `buildRow` to `specRow`). -/
def rowFn (K : Type) [Field K] (nports : ℕ) : PortSpec → List K
  | PortSpec.pair p q =>
      ((List.replicate nports (0 : K)).set (p - 1).toNat 1).set (q - 1).toNat (-1)
  | PortSpec.single p =>
      if 0 < p then (List.replicate nports (0 : K)).set (p - 1).toNat 1
      else (List.replicate nports (0 : K)).set (-p - 1).toNat (-1)

theorem pySet_ok {K : Type} {l : List K} {i : ℤ} {v : K} (hi : 0 ≤ i)
    (hlt : i < (l.length : ℤ)) : pySet l i v = Except.ok (l.set i.toNat v) := by
  simp only [pySet]
  rw [if_neg (not_lt.2 hi), dif_pos ⟨hi, hlt⟩]

theorem pySet_len {K : Type} {l r : List K} {i : ℤ} {v : K}
    (h : pySet l i v = Except.ok r) : r.length = l.length := by
  simp only [pySet] at h
  split at h
  · split at h
    · cases h
      exact List.length_set ..
    · cases h
  · split at h
    · cases h
      exact List.length_set ..
    · cases h

theorem pySet_err_high {K : Type} {l : List K} {i : ℤ} {v : K} (hi : 0 ≤ i)
    (hge : (l.length : ℤ) ≤ i) : ∃ e, pySet l i v = Except.error e := by
  simp only [pySet]
  rw [if_neg (not_lt.2 hi), dif_neg (by omega)]
  exact ⟨_, rfl⟩

theorem buildRow_eq_rowFn {K : Type} [Field K] {n : ℕ} {s : PortSpec}
    (hv : validSpec n s) : buildRow K n s = Except.ok (rowFn K n s) := by
  cases s with
  | pair p q =>
    obtain ⟨h1, h2, h3, h4⟩ := hv
    have e1 : pySet (List.replicate n (0 : K)) (p - 1) 1 =
        Except.ok ((List.replicate n (0 : K)).set (p - 1).toNat 1) :=
      pySet_ok (by omega) (by rw [List.length_replicate]; omega)
    have e2 : pySet ((List.replicate n (0 : K)).set (p - 1).toNat 1) (q - 1) (-1) =
        Except.ok (rowFn K n (PortSpec.pair p q)) :=
      pySet_ok (by omega) (by rw [List.length_set, List.length_replicate]; omega)
    show (pySet (List.replicate n (0 : K)) (p - 1) 1).bind (fun r1 => pySet r1 (q - 1) (-1)) =
      Except.ok (rowFn K n (PortSpec.pair p q))
    rw [e1]
    exact e2
  | single p =>
    obtain ⟨h1, h2⟩ := hv
    rcases lt_or_gt_of_ne h1 with hneg | hpos
    · rw [buildRow, if_neg h1, if_neg (by omega), rowFn, if_neg (by omega)]
      exact pySet_ok (by omega) (by rw [List.length_replicate]; omega)
    · rw [buildRow, if_neg h1, if_pos hpos, rowFn, if_pos hpos]
      exact pySet_ok (by omega) (by rw [List.length_replicate]; omega)

theorem rowFn_length {K : Type} [Field K] {n : ℕ} {s : PortSpec} :
    (rowFn K n s).length = n := by
  cases s with
  | pair p q => simp [rowFn]
  | single p =>
    rw [rowFn]
    split <;> simp

theorem rowFn_getD {K : Type} [Field K] {n : ℕ} {s : PortSpec}
    (hv : validSpec n s) (j : Fin n) : (rowFn K n s).getD j.1 0 = specRow n s j := by
  have hj : j.1 < (rowFn K n s).length := by rw [rowFn_length]; exact j.2
  rw [List.getD_eq_getElem?_getD, List.getElem?_eq_getElem hj, Option.getD_some]
  cases s with
  | pair p q =>
    obtain ⟨h1, h2, h3, h4⟩ := hv
    simp only [rowFn, specRow, List.getElem_set, List.getElem_replicate]
    rw [if_congr (show ((q - 1).toNat = j.1) ↔ ((j.1 : ℤ) = q - 1) by omega) rfl rfl,
      if_congr (show ((p - 1).toNat = j.1) ↔ ((j.1 : ℤ) = p - 1) by omega) rfl rfl]
  | single p =>
    obtain ⟨h1, h2⟩ := hv
    rcases lt_or_gt_of_ne h1 with hneg | hpos
    · simp only [rowFn, if_neg (by omega : ¬ 0 < p), specRow,
        List.getElem_set, List.getElem_replicate]
      rw [if_congr (show ((-p - 1).toNat = j.1) ↔ ((j.1 : ℤ) = |p| - 1) by
        rw [abs_of_neg hneg]; omega) rfl rfl]
    · simp only [rowFn, if_pos hpos, specRow, List.getElem_set, List.getElem_replicate]
      rw [if_congr (show ((p - 1).toNat = j.1) ↔ ((j.1 : ℤ) = |p| - 1) by
        rw [abs_of_pos hpos]; omega) rfl rfl]

theorem recombine_eq_spec {K : Type} [Field K] {n : ℕ} (M : NPortMatrix n K)
    (specs : List PortSpec) (hty : M.ptype = PType.Z) (hz0 : M.z0 = none)
    (hv : ∀ s ∈ specs, validSpec n s) :
    M.recombine specs = Except.ok
      ⟨specMatrix n specs * M.mat * (specMatrix n specs).transpose, PType.Z, none⟩ := by
  rw [NPortMatrix.recombine, if_neg (by rw [hty]; simp)]
  have hmap : specs.mapM (buildRow K n) = Except.ok (specs.map (rowFn K n)) :=
    mapM_ok_of_forall (fun s hs => buildRow_eq_rowFn (hv s hs))
  show (specs.mapM (buildRow K n)).bind _ = _
  rw [hmap]
  have hm : (Matrix.of fun (i : Fin specs.length) (j : Fin n) =>
      ((specs.map (rowFn K n)).getD i.1 []).getD j.1 0) = specMatrix n specs := by
    ext i j
    have hi : i.1 < (specs.map (rowFn K n)).length := by
      rw [List.length_map]; exact i.2
    rw [Matrix.of_apply, List.getD_eq_getElem?_getD (specs.map (rowFn K n)) i.1 [],
      List.getElem?_eq_getElem hi, Option.getD_some, List.getElem_map]
    exact rowFn_getD (hv _ (List.getElem_mem i.2)) j
  show mkNPortMatrix _ M.ptype M.z0 = _
  rw [hm, mkNPortMatrix, hty, hz0, z0test]
  rfl

/-- Claim C6: on a Z-typed matrix with valid port specs, `recombine` returns
`M·Z·Mᵗ` for the spec transform matrix `M`, with unchanged type and
impedance; in particular `recombine([(1,2)])` on `[[z11,z12],[z21,z22]]` is
the 1×1 matrix `z11 - z12 - z21 + z22`. -/
theorem recombine_transform {K : Type} [Field K] {n : ℕ} (M : NPortMatrix n K)
    (specs : List PortSpec) (hty : M.ptype = PType.Z) (hz0 : M.z0 = none)
    (hv : ∀ s ∈ specs, validSpec n s) :
    M.recombine specs = Except.ok
      ⟨specMatrix n specs * M.mat * (specMatrix n specs).transpose, PType.Z, none⟩ ∧
    (∀ z11 z12 z21 z22 : K,
      NPortMatrix.recombine ⟨!![z11, z12; z21, z22], PType.Z, none⟩ [PortSpec.pair 1 2] =
        Except.ok ⟨!![z11 - z12 - z21 + z22], PType.Z, none⟩) := by
  refine ⟨recombine_eq_spec M specs hty hz0 hv, fun z11 z12 z21 z22 => ?_⟩
  rw [recombine_eq_spec _ [PortSpec.pair 1 2] rfl rfl (by
    intro s hs
    rw [List.mem_singleton] at hs
    subst hs
    exact ⟨by norm_num, by norm_num, by norm_num, by norm_num⟩)]
  have hmat : specMatrix 2 [PortSpec.pair 1 2] * !![z11, z12; z21, z22] *
      (specMatrix 2 [PortSpec.pair 1 2]).transpose = !![z11 - z12 - z21 + z22] := by
    ext i j
    fin_cases i
    fin_cases j
    simp [specMatrix, specRow, Matrix.mul_apply, Fin.sum_univ_two]
    ring
  rw [hmat]

theorem recombine_transform_witness :
    NPortMatrix.recombine ⟨!![(5 : ℚ), 6; 7, 8], PType.Z, none⟩ [PortSpec.pair 1 2] =
      Except.ok ⟨!![(5 : ℚ) - 6 - 7 + 8], PType.Z, none⟩ :=
  (recombine_transform ⟨!![(5 : ℚ), 6; 7, 8], PType.Z, none⟩ [] rfl rfl
    (by intro s hs; cases hs)).2 5 6 7 8

/-- Claim C8 counterexample: a pair entry with port index 0 does NOT raise;
Python negative indexing makes `row[0 - 1]` silently reference the last
column, so `recombine([(0, 1)])` on a 2-port Z matrix returns a result. -/
theorem recombine_pair_zero_no_error :
    ∃ N : NPortMatrix 1 ℚ,
      NPortMatrix.recombine ⟨!![(1 : ℚ), 2; 3, 4], PType.Z, none⟩ [PortSpec.pair 0 1] =
        Except.ok N ∧ N.mat = !![(0 : ℚ)] := by
  refine ⟨_, rfl, ?_⟩
  ext i j
  fin_cases i
  fin_cases j
  norm_num [pySet, Matrix.mul_apply, Fin.sum_univ_two, List.set]

theorem buildRow_err_of_bad {K : Type} [Field K] {n : ℕ} {s : PortSpec}
    (hb : badSpec n s) : ∃ e, buildRow K n s = Except.error e := by
  cases s with
  | single p =>
    rcases hb with hz | habs
    · subst hz
      exact ⟨_, rfl⟩
    · by_cases h0 : p = 0
      · subst h0
        exact ⟨_, rfl⟩
      rcases lt_or_gt_of_ne h0 with hneg | hpos
      · rw [buildRow, if_neg h0, if_neg (by omega)]
        exact pySet_err_high (by omega) (by rw [List.length_replicate]; rw [abs_of_neg hneg] at habs; omega)
      · rw [buildRow, if_neg h0, if_pos hpos]
        exact pySet_err_high (by omega) (by rw [List.length_replicate]; rw [abs_of_pos hpos] at habs; omega)
  | pair p q =>
    rcases hb with hp | hq
    · obtain ⟨e, he⟩ := pySet_err_high (l := List.replicate n (0 : K)) (i := p - 1)
        (v := 1) (by omega) (by rw [List.length_replicate]; omega)
      refine ⟨e, ?_⟩
      show (pySet (List.replicate n (0 : K)) (p - 1) 1).bind (fun r1 => pySet r1 (q - 1) (-1)) = _
      rw [he]
      rfl
    · show ∃ e, (pySet (List.replicate n (0 : K)) (p - 1) 1).bind
        (fun r1 => pySet r1 (q - 1) (-1)) = Except.error e
      cases h1 : pySet (List.replicate n (0 : K)) (p - 1) 1 with
      | error e => exact ⟨e, rfl⟩
      | ok r1 =>
        have hr1 : r1.length = n := by
          rw [pySet_len h1, List.length_replicate]
        obtain ⟨e, he⟩ := pySet_err_high (l := r1) (i := q - 1) (v := -1)
          (by omega) (by rw [hr1]; omega)
        exact ⟨e, he⟩

/-- Claim C8 amended: on a Z-typed matrix, `recombine` raises a fatal error
for a single signed-index entry that is 0 or out of range, and for a pair
entry referencing a port beyond the port count; a pair entry with index 0
does not raise (it wraps to the last port). -/
theorem recombine_err_of_bad {K : Type} [Field K] {n : ℕ} (M : NPortMatrix n K)
    (specs : List PortSpec) (hty : M.ptype = PType.Z)
    (hbad : ∃ s ∈ specs, badSpec n s) :
    ∃ e, M.recombine specs = Except.error e := by
  obtain ⟨s, hmem, hb⟩ := hbad
  rw [NPortMatrix.recombine, if_neg (by rw [hty]; simp)]
  obtain ⟨e, he⟩ := mapM_error_of_mem hmem (buildRow_err_of_bad (K := K) hb)
  refine ⟨e, ?_⟩
  show (specs.mapM (buildRow K n)).bind _ = _
  rw [he]
  rfl

theorem recombine_err_of_bad_witness :
    ∃ e, NPortMatrix.recombine ⟨!![(1 : ℚ)], PType.Z, none⟩ [PortSpec.single 0] =
      Except.error e :=
  recombine_err_of_bad ⟨!![(1 : ℚ)], PType.Z, none⟩ [PortSpec.single 0] rfl
    ⟨PortSpec.single 0, List.mem_singleton_self _, Or.inl rfl⟩

/-- What `twonportmatrix` hands to the block-algebra collaborator
(`twonport.TwoNPortMatrix(matrix, type, z0)`): the four n×n quadrants of
the (possibly reordered) matrix plus the type and impedance tags. -/
structure TwoNPortMatrix (n : ℕ) (K : Type) where
  b11 : Matrix (Fin n) (Fin n) K
  b12 : Matrix (Fin n) (Fin n) K
  b21 : Matrix (Fin n) (Fin n) K
  b22 : Matrix (Fin n) (Fin n) K
  ptype : PType
  z0 : Option K

/-- First-half index embedding `Fin n → Fin (2*n)`. -/
def finLow {n : ℕ} (i : Fin n) : Fin (2 * n) := ⟨i.1, by omega⟩

/-- Second-half index embedding `Fin n → Fin (2*n)`. -/
def finHigh {n : ℕ} (i : Fin n) : Fin (2 * n) := ⟨n + i.1, by omega⟩

/-- Split a 2n×2n matrix into the four n×n quadrants
`x11, x12, x21, x22` (the `matrix[0:n, 0:n]` etc. slices). -/
def blocksOf {n : ℕ} {K : Type} (A : Matrix (Fin (2 * n)) (Fin (2 * n)) K)
    (t : PType) (z0 : Option K) : TwoNPortMatrix n K :=
  ⟨Matrix.of fun i j => A (finLow i) (finLow j),
   Matrix.of fun i j => A (finLow i) (finHigh j),
   Matrix.of fun i j => A (finHigh i) (finLow j),
   Matrix.of fun i j => A (finHigh i) (finHigh j), t, z0⟩

/-- Index lookup for the row/column shuffle in `twonportmatrix`: the source
permutes rows and columns by the zero-based list
`ports = inports + outports` (two transposition passes amount to
`result[i][j] = self[ports[i]][ports[j]]`).  Out-of-range lookups cannot
occur once the port sets passed validation; the fallback keeps the
function total. -/
def pyReindex {n : ℕ} (pl : List ℤ) (i : Fin (2 * n)) : Fin (2 * n) :=
  if hv : (pl.getD i.1 0).toNat < 2 * n then ⟨(pl.getD i.1 0).toNat, hv⟩ else i

/-- `NPortMatrix.twonportmatrix(inports, outports)` for an even port count
2n.  With both arguments omitted, the first n ports are inputs and the last
n outputs, and the matrix is quartered as-is.  Otherwise the asserted
validation requires sizes n and n, no duplicates (the union has 2n
elements), and `min == 1 and max == 2n` (an empty union fails this too:
Python would raise `ValueError` on `min(set())`); then rows and columns are
shuffled to `[inports..., outports...]` order before quartering. -/
def twonportmatrix {K : Type} [Field K] {n : ℕ} (M : NPortMatrix (2 * n) K)
    (inports outports : Option (List ℤ)) : Except String (TwoNPortMatrix n K) :=
  match inports, outports with
  | none, none => Except.ok (blocksOf M.mat M.ptype M.z0)
  | some inl, some outl =>
      if h : inl.length = n ∧ outl.length = n ∧
          (inl.toFinset ∪ outl.toFinset).card = 2 * n ∧
          (inl.toFinset ∪ outl.toFinset).min = ((1 : ℤ) : WithTop ℤ) ∧
          (inl.toFinset ∪ outl.toFinset).max = (((2 * n : ℕ) : ℤ) : WithBot ℤ) then
        Except.ok (blocksOf (Matrix.of fun i j =>
          M.mat (pyReindex (inl.map (· - 1) ++ outl.map (· - 1)) i)
            (pyReindex (inl.map (· - 1) ++ outl.map (· - 1)) j)) M.ptype M.z0)
      else Except.error "AssertionError: invalid inports and outports"
  | _, _ => Except.error "AssertionError: inports is not None and outports is not None"

/-- Claim C7: on a 4-port matrix, `twonportmatrix` with `inports=[1,2]`,
`outports=[3,4]` equals the default no-argument partition; and on any
even-port matrix, port sets that overlap, have the wrong sizes, or fail to
cover `{1..2n}` exactly make the validation fail fatally. -/
theorem twonportmatrix_spec {K : Type} [Field K] :
    (∀ M : NPortMatrix (2 * 2) K,
      twonportmatrix M (some [1, 2]) (some [3, 4]) = twonportmatrix M none none) ∧
    (∀ (n : ℕ) (M : NPortMatrix (2 * n) K) (inl outl : List ℤ),
      ((∃ p, p ∈ inl ∧ p ∈ outl) ∨ inl.length ≠ n ∨ outl.length ≠ n ∨
        inl.toFinset ∪ outl.toFinset ≠ Finset.Icc 1 ((2 * n : ℕ) : ℤ)) →
      ∃ e, twonportmatrix M (some inl) (some outl) = Except.error e) := by
  constructor
  · intro M
    have hre : pyReindex (n := 2) (([1, 2] : List ℤ).map (· - 1) ++
        ([3, 4] : List ℤ).map (· - 1)) = id := by decide
    simp only [twonportmatrix]
    rw [dif_pos (by decide), hre]
    rfl
  · intro n M inl outl hbad
    by_cases hg : inl.length = n ∧ outl.length = n ∧
        (inl.toFinset ∪ outl.toFinset).card = 2 * n ∧
        (inl.toFinset ∪ outl.toFinset).min = ((1 : ℤ) : WithTop ℤ) ∧
        (inl.toFinset ∪ outl.toFinset).max = (((2 * n : ℕ) : ℤ) : WithBot ℤ)
    · exfalso
      obtain ⟨hlin, hlout, hcard, hmin, hmax⟩ := hg
      rcases hbad with ⟨p, hpi, hpo⟩ | hli | hlo | hcover
      · have hinter : 0 < (inl.toFinset ∩ outl.toFinset).card :=
          Finset.card_pos.2 ⟨p, Finset.mem_inter.2 ⟨List.mem_toFinset.2 hpi,
            List.mem_toFinset.2 hpo⟩⟩
        have hsum := Finset.card_union_add_card_inter inl.toFinset outl.toFinset
        have h1 : inl.toFinset.card ≤ n := hlin ▸ inl.toFinset_card_le
        have h2 : outl.toFinset.card ≤ n := hlout ▸ outl.toFinset_card_le
        omega
      · exact hli hlin
      · exact hlo hlout
      · apply hcover
        apply Finset.eq_of_subset_of_card_le
        · intro x hx
          rw [Finset.mem_Icc]
          constructor
          · have := Finset.min_le hx
            rw [hmin] at this
            exact_mod_cast this
          · have := Finset.le_max hx
            rw [hmax] at this
            exact_mod_cast this
        · rw [Int.card_Icc, hcard]
          omega
    · rw [twonportmatrix, dif_neg hg]
      exact ⟨_, rfl⟩

theorem twonportmatrix_spec_witness :
    twonportmatrix ⟨(0 : Matrix (Fin (2 * 2)) (Fin (2 * 2)) ℚ), PType.Z, none⟩
        (some [1, 2]) (some [3, 4]) =
      twonportmatrix ⟨(0 : Matrix (Fin (2 * 2)) (Fin (2 * 2)) ℚ), PType.Z, none⟩
        none none ∧
    ∃ e, twonportmatrix ⟨(0 : Matrix (Fin (2 * 2)) (Fin (2 * 2)) ℚ), PType.Z, none⟩
        (some [1, 2]) (some [1, 3]) = Except.error e :=
  ⟨(twonportmatrix_spec (K := ℚ)).1 _,
   (twonportmatrix_spec (K := ℚ)).2 2 _ [1, 2] [1, 3]
     (Or.inl ⟨1, by norm_num, by norm_num⟩)⟩

/-- An `NPort`: a frequency sweep — parallel lists of sample frequencies
and square complex matrices, plus the sweep-wide type and impedance tags
set by `NPortBase.__new__`. -/
structure NPort (n : ℕ) (K : Type) where
  freqs : List ℚ
  mats : List (Matrix (Fin n) (Fin n) K)
  ptype : PType
  z0 : Option K

/-- The `NPort(freqs, matrices, type, z0)` constructor: unequal lengths
raise `ValueError`; the access `matrices[0]` in `NPortBase.__new__` raises
`IndexError` on an empty matrix list; `_z0test` validates the impedance.
Squareness and two-dimensionality hold by typing here. -/
def mkNPort {K : Type} [Field K] {n : ℕ} (freqs : List ℚ)
    (mats : List (Matrix (Fin n) (Fin n) K)) (t : PType) (z0 : Option K) :
    Except String (NPort n K) :=
  if freqs.length ≠ mats.length then
    Except.error "the list of frequencies and the list of matrices should have equal lenghts"
  else
    match mats with
    | [] => Except.error "IndexError: list index out of range"
    | _ :: _ => (z0test t z0).map fun z => ⟨freqs, mats, t, z⟩

/-- The sweep-wide tag invariant maintained by the constructors: S/T-typed
sweeps carry an impedance, all others carry none. -/
def z0consistent {K : Type} (t : PType) (z : Option K) : Prop :=
  if t = PType.S ∨ t = PType.T then z.isSome = true else z = none

/-- Piecewise-linear interpolation along the frequency axis
(`scipy.interpolate.interp1d(self.freqs, self, axis=0)`), on the zipped
list of (frequency, matrix) samples.  The real interpolation coefficient
`(f - x1)/(x2 - x1)` multiplies the complex matrices, modelled by the
`ℚ → K` cast.  Queries outside the sampled range raise in scipy; all uses
below stay inside the range, where this total model is faithful. -/
def interpPairs {K : Type} [Field K] {n : ℕ} :
    List (ℚ × Matrix (Fin n) (Fin n) K) → ℚ → Matrix (Fin n) (Fin n) K
  | [], _ => 0
  | [(_, m)], _ => m
  | (x1, m1) :: (x2, m2) :: rest, f =>
      if f ≤ x2 then m1 + (((f - x1) / (x2 - x1) : ℚ) : K) • (m2 - m1)
      else interpPairs ((x2, m2) :: rest) f

/-- `NPortBase.at` at a single frequency. -/
def NPort.at1 {K : Type} [Field K] {n : ℕ} (s : NPort n K) (f : ℚ) :
    Matrix (Fin n) (Fin n) K :=
  interpPairs (s.freqs.zip s.mats) f

/-- `sorted(set(freqs1).union(set(freqs2)))`: the duplicate-free union of
the two frequency lists in increasing order (implemented with an insertion
sort, which evaluates in the kernel; any sort yields this same list). -/
def sortedUnion (f1 f2 : List ℚ) : List ℚ :=
  List.insertionSort (· ≤ ·) ((f1 ++ f2).dedup)

/-- The aligned frequency grid of the injected arithmetic operators
(`NPortBase.__metaclass__.make_op`): the sorted union sliced from
`index(max(firsts))` to `index(min(lasts)) + 1` — upper endpoint included. -/
def opGrid (f1 f2 : List ℚ) : List ℚ :=
  ((sortedUnion f1 f2).drop ((sortedUnion f1 f2).indexOf (max f1.headI f2.headI))).take
    ((sortedUnion f1 f2).indexOf (min (f1.getLastD 0) (f2.getLastD 0)) + 1 -
      (sortedUnion f1 f2).indexOf (max f1.headI f2.headI))

/-- `merge_freqs` inside `dot`: the same slice but WITHOUT the `+ 1` —
the upper endpoint is excluded. -/
def merge_freqs (f1 f2 : List ℚ) : List ℚ :=
  ((sortedUnion f1 f2).drop ((sortedUnion f1 f2).indexOf (max f1.headI f2.headI))).take
    ((sortedUnion f1 f2).indexOf (min (f1.getLastD 0) (f2.getLastD 0)) -
      (sortedUnion f1 f2).indexOf (max f1.headI f2.headI))

/-- The sweep×sweep branch of an injected arithmetic operator on two
`NPort`s: check the types match, check the impedances match, align both
sweeps on `opGrid`, interpolate, combine elementwise with `f`, and build
the result through the `NPort` constructor with the first operand's type
and impedance. -/
def npOp {K : Type} [Field K] [DecidableEq K] {n : ℕ}
    (f : Matrix (Fin n) (Fin n) K → Matrix (Fin n) (Fin n) K → Matrix (Fin n) (Fin n) K)
    (a b : NPort n K) : Except String (NPort n K) :=
  if b.ptype = a.ptype then
    if b.z0 ≠ a.z0 then Except.error "operands have different Z0"
    else
      mkNPort (opGrid a.freqs b.freqs)
        (List.zipWith f ((opGrid a.freqs b.freqs).map a.at1)
          ((opGrid a.freqs b.freqs).map b.at1))
        a.ptype a.z0
  else Except.error "operands have different types"

/-- `__add__` on two sweeps: elementwise (stacked ndarray) addition. -/
def npAdd {K : Type} [Field K] [DecidableEq K] {n : ℕ} (a b : NPort n K) :
    Except String (NPort n K) :=
  npOp (· + ·) a b

/-- `__sub__` on two sweeps: elementwise subtraction. -/
def npSub {K : Type} [Field K] [DecidableEq K] {n : ℕ} (a b : NPort n K) :
    Except String (NPort n K) :=
  npOp (· - ·) a b

/-- `__mul__` on two sweeps: numpy `*` is the elementwise (Hadamard)
product, not the matrix product. -/
def npMul {K : Type} [Field K] [DecidableEq K] {n : ℕ} (a b : NPort n K) :
    Except String (NPort n K) :=
  npOp (fun A B => Matrix.of fun i j => A i j * B i j) a b

/-- `__div__` on two sweeps: numpy `/` is elementwise division. -/
def npDiv {K : Type} [Field K] [DecidableEq K] {n : ℕ} (a b : NPort n K) :
    Except String (NPort n K) :=
  npOp (fun A B => Matrix.of fun i j => A i j / B i j) a b

/-- The NPort×NPort branch of the free function `dot`: align on
`merge_freqs`, interpolate both, take the ordinary matrix product
(`np.dot`) sample by sample, and build an `NPort` tagged with the first
operand's type and impedance. -/
def dot {K : Type} [Field K] {n : ℕ} (a b : NPort n K) : Except String (NPort n K) :=
  mkNPort (merge_freqs a.freqs b.freqs)
    (List.zipWith (· * ·) ((merge_freqs a.freqs b.freqs).map a.at1)
      ((merge_freqs a.freqs b.freqs).map b.at1))
    a.ptype a.z0

/-- The attribute access `self.matrices` in `NPort.add` (and in the
sweep×constant branch of `dot`): neither `NPort`, `NPortBase`,
`NPortMatrixBase` nor `numpy.ndarray` defines an attribute or property
named `matrices`, so Python raises `AttributeError` here. -/
def NPort.matricesAttr {K : Type} {n : ℕ} (_ : NPort n K) :
    Except String (List (Matrix (Fin n) (Fin n) K)) :=
  Except.error "AttributeError: NPort object has no attribute matrices"

/-- `np.searchsorted(self.freqs, freq)` (left insertion point) on a sorted
frequency list: the number of samples strictly below `freq`. -/
def searchsorted (l : List ℚ) (f : ℚ) : ℕ :=
  (l.takeWhile (fun x => x < f)).length

/-- `NPort.add(freq, matrix)` with a raw (already compatible) sample
matrix, so the `NPortMatrix` conversion branch is skipped: compute the
insertion index, insert the frequency, then insert the matrix into
`self.matrices` — which raises `AttributeError` (see
`NPort.matricesAttr`). -/
def NPort.add {K : Type} [Field K] {n : ℕ} (s : NPort n K) (f : ℚ)
    (m : Matrix (Fin n) (Fin n) K) : Except String (NPort n K) := do
  let freqs := s.freqs.insertIdx (searchsorted s.freqs f) f
  let mats ← s.matricesAttr
  mkNPort freqs (mats.insertIdx (searchsorted s.freqs f) m) s.ptype s.z0

/-- `NPort.convert(type, z0)`: convert every sample through
`NPortMatrix.convert(type, z0)`, then rebuild the sweep with
`NPort(self.freqs, converted, type, z0)` — passing the caller-supplied
`z0` (possibly `None`) straight to the constructor, whose `_z0test`
defaults it to 50.0 for S/T rather than to the samples' impedance. -/
def NPort.convert {K : Type} [Field K] [DecidableEq K] {n : ℕ} (s : NPort n K)
    (t : PType) (z0 : Option K) : Except String (NPort n K) := do
  let converted ← s.mats.mapM (fun m => NPortMatrix.convert ⟨m, s.ptype, s.z0⟩ t z0)
  mkNPort s.freqs (converted.map (fun N => N.mat)) t z0

theorem sl_take_lt {u : List ℚ} (hu : u.Sorted (· < ·)) {v : ℚ} (hv : v ∈ u) :
    u.take (u.indexOf v) = u.filter (fun x => x < v) := by
  induction u with
  | nil => cases hv
  | cons x t ih =>
    rw [List.sorted_cons] at hu
    obtain ⟨hx, ht⟩ := hu
    by_cases hxv : x = v
    · subst hxv
      rw [List.indexOf_cons_self, List.take_zero]
      symm
      rw [List.filter_eq_nil_iff]
      intro y hy
      simp only [decide_eq_true_eq]
      rcases List.mem_cons.1 hy with rfl | hyt
      · exact lt_irrefl y
      · exact not_lt.2 (le_of_lt (hx y hyt))
    · have hvt : v ∈ t := by
        rcases List.mem_cons.1 hv with h | h
        · exact absurd h.symm hxv
        · exact h
      rw [List.indexOf_cons_ne _ hxv, List.take_succ_cons,
        List.filter_cons_of_pos (by simp [hx v hvt]), ih ht hvt]

theorem sl_take_le {u : List ℚ} (hu : u.Sorted (· < ·)) {v : ℚ} (hv : v ∈ u) :
    u.take (u.indexOf v + 1) = u.filter (fun x => x ≤ v) := by
  induction u with
  | nil => cases hv
  | cons x t ih =>
    rw [List.sorted_cons] at hu
    obtain ⟨hx, ht⟩ := hu
    by_cases hxv : x = v
    · subst hxv
      rw [List.indexOf_cons_self, zero_add, List.take_succ_cons, List.take_zero,
        List.filter_cons_of_pos (by simp)]
      congr 1
      symm
      rw [List.filter_eq_nil_iff]
      intro y hy
      simp only [decide_eq_true_eq]
      exact not_le.2 (hx y hy)
    · have hvt : v ∈ t := by
        rcases List.mem_cons.1 hv with h | h
        · exact absurd h.symm hxv
        · exact h
      rw [List.indexOf_cons_ne _ hxv, List.take_succ_cons,
        List.filter_cons_of_pos (by simp [le_of_lt (hx v hvt)]), ih ht hvt]

theorem sl_drop {u : List ℚ} (hu : u.Sorted (· < ·)) {v : ℚ} (hv : v ∈ u) :
    u.drop (u.indexOf v) = u.filter (fun x => v ≤ x) := by
  induction u with
  | nil => cases hv
  | cons x t ih =>
    rw [List.sorted_cons] at hu
    obtain ⟨hx, ht⟩ := hu
    by_cases hxv : x = v
    · subst hxv
      rw [List.indexOf_cons_self, List.drop_zero]
      symm
      rw [List.filter_eq_self]
      intro y hy
      simp only [decide_eq_true_eq]
      rcases List.mem_cons.1 hy with rfl | hyt
      · exact le_refl y
      · exact le_of_lt (hx y hyt)
    · have hvt : v ∈ t := by
        rcases List.mem_cons.1 hv with h | h
        · exact absurd h.symm hxv
        · exact h
      rw [List.indexOf_cons_ne _ hxv, List.drop_succ_cons,
        List.filter_cons_of_neg (by simp [hx v hvt]), ih ht hvt]

theorem sl_idx_mono {u : List ℚ} (hu : u.Sorted (· < ·)) {a b : ℚ} (ha : a ∈ u)
    (hb : b ∈ u) (hab : a ≤ b) : u.indexOf a ≤ u.indexOf b := by
  induction u with
  | nil => cases ha
  | cons x t ih =>
    rw [List.sorted_cons] at hu
    obtain ⟨hx, ht⟩ := hu
    by_cases hxa : x = a
    · subst hxa
      rw [List.indexOf_cons_self]
      exact Nat.zero_le _
    · have hat : a ∈ t := by
        rcases List.mem_cons.1 ha with h | h
        · exact absurd h.symm hxa
        · exact h
      have hxb : x ≠ b := fun h => absurd (hx a hat) (by rw [h]; exact not_lt.2 hab)
      have hbt : b ∈ t := by
        rcases List.mem_cons.1 hb with h | h
        · exact absurd h.symm hxb
        · exact h
      rw [List.indexOf_cons_ne _ hxa, List.indexOf_cons_ne _ hxb]
      exact Nat.succ_le_succ (ih ht hat hbt)

theorem sl_idx_shift {u : List ℚ} (hu : u.Sorted (· < ·)) {a b : ℚ} (ha : a ∈ u)
    (hb : b ∈ u) (hab : a ≤ b) :
    (u.filter (fun x => a ≤ x)).indexOf b = u.indexOf b - u.indexOf a := by
  induction u with
  | nil => cases ha
  | cons x t ih =>
    rw [List.sorted_cons] at hu
    obtain ⟨hx, ht⟩ := hu
    by_cases hxa : x = a
    · subst hxa
      rw [List.indexOf_cons_self, Nat.sub_zero,
        List.filter_cons_of_pos (by simp)]
      have hft : t.filter (fun y => decide (x ≤ y)) = t := by
        rw [List.filter_eq_self]
        intro y hy
        simp only [decide_eq_true_eq]
        exact le_of_lt (hx y hy)
      by_cases hxb : x = b
      · subst hxb
        rw [List.indexOf_cons_self, List.indexOf_cons_self]
      · rw [List.indexOf_cons_ne _ hxb, List.indexOf_cons_ne _ hxb, hft]
    · have hat : a ∈ t := by
        rcases List.mem_cons.1 ha with h | h
        · exact absurd h.symm hxa
        · exact h
      have hxb : x ≠ b := fun h => absurd (hx a hat) (by rw [h]; exact not_lt.2 hab)
      have hbt : b ∈ t := by
        rcases List.mem_cons.1 hb with h | h
        · exact absurd h.symm hxb
        · exact h
      rw [List.filter_cons_of_neg (by simp [hx a hat]),
        List.indexOf_cons_ne _ hxa, List.indexOf_cons_ne _ hxb,
        Nat.succ_sub_succ, ih ht hat hbt]

theorem slice_eq_filter_lt {u : List ℚ} (hu : u.Sorted (· < ·)) {a b : ℚ}
    (ha : a ∈ u) (hb : b ∈ u) (hab : a ≤ b) :
    (u.drop (u.indexOf a)).take (u.indexOf b - u.indexOf a) =
      u.filter (fun x => a ≤ x ∧ x < b) := by
  have hsub : (u.filter (fun x => a ≤ x)).Sorted (· < ·) := hu.filter _
  have hbf : b ∈ u.filter (fun x => a ≤ x) := List.mem_filter.2 ⟨hb, by simp [hab]⟩
  rw [sl_drop hu ha, ← sl_idx_shift hu ha hb hab, sl_take_lt hsub hbf,
    List.filter_filter]
  refine List.filter_congr fun x _ => ?_
  rw [Bool.decide_and]
  exact Bool.and_comm _ _

theorem slice_eq_filter_le {u : List ℚ} (hu : u.Sorted (· < ·)) {a b : ℚ}
    (ha : a ∈ u) (hb : b ∈ u) (hab : a ≤ b) :
    (u.drop (u.indexOf a)).take (u.indexOf b + 1 - u.indexOf a) =
      u.filter (fun x => a ≤ x ∧ x ≤ b) := by
  have hsub : (u.filter (fun x => a ≤ x)).Sorted (· < ·) := hu.filter _
  have hbf : b ∈ u.filter (fun x => a ≤ x) := List.mem_filter.2 ⟨hb, by simp [hab]⟩
  have hidx : u.indexOf b + 1 - u.indexOf a =
      (u.filter (fun x => a ≤ x)).indexOf b + 1 := by
    rw [sl_idx_shift hu ha hb hab]
    have := sl_idx_mono hu ha hb hab
    omega
  rw [sl_drop hu ha, hidx, sl_take_le hsub hbf, List.filter_filter]
  refine List.filter_congr fun x _ => ?_
  rw [Bool.decide_and]
  exact Bool.and_comm _ _

theorem sortedUnion_sorted (f1 f2 : List ℚ) :
    (sortedUnion f1 f2).Sorted (· < ·) :=
  (List.sorted_insertionSort _ _).lt_of_le
    (((List.perm_insertionSort _ _).nodup_iff).2 (List.nodup_dedup _))

theorem mem_sortedUnion {f1 f2 : List ℚ} {x : ℚ} :
    x ∈ sortedUnion f1 f2 ↔ x ∈ f1 ∨ x ∈ f2 := by
  rw [sortedUnion, List.mem_insertionSort, List.mem_dedup, List.mem_append]

theorem headI_mem {l : List ℚ} (h : l ≠ []) : l.headI ∈ l := by
  cases l with
  | nil => exact absurd rfl h
  | cons x t => exact List.mem_cons_self x t

theorem getLastD_mem {l : List ℚ} (d : ℚ) (h : l ≠ []) : l.getLastD d ∈ l := by
  rw [List.getLastD_eq_getLast? , List.getLast?_eq_getLast l h, Option.getD_some]
  exact List.getLast_mem h

theorem z0test_of_consistent {K : Type} [Field K] {t : PType} {z : Option K}
    (h : z0consistent t z) : z0test t z = Except.ok z := by
  rw [z0consistent] at h
  unfold z0test
  split
  · cases z with
    | none => rw [if_pos (by assumption)] at h; cases h
    | some w => rfl
  · cases z with
    | none => rfl
    | some w =>
      rw [if_neg (by assumption)] at h
      cases h

theorem mkNPort_ok {K : Type} [Field K] {n : ℕ} {freqs : List ℚ}
    {mats : List (Matrix (Fin n) (Fin n) K)} {t : PType} {z : Option K}
    (hlen : freqs.length = mats.length) (hne : mats ≠ [])
    (hz : z0consistent t z) :
    mkNPort freqs mats t z = Except.ok ⟨freqs, mats, t, z⟩ := by
  unfold mkNPort
  rw [if_neg (by simp [hlen])]
  cases mats with
  | nil => exact absurd rfl hne
  | cons m ms =>
    rw [z0test_of_consistent hz]
    rfl

theorem merge_freqs_eq_filter {f1 f2 : List ℚ} (h10 : f1 ≠ []) (h20 : f2 ≠ [])
    (hov : max f1.headI f2.headI ≤ min (f1.getLastD 0) (f2.getLastD 0)) :
    merge_freqs f1 f2 = (sortedUnion f1 f2).filter
      (fun x => max f1.headI f2.headI ≤ x ∧ x < min (f1.getLastD 0) (f2.getLastD 0)) := by
  have hmem_min : max f1.headI f2.headI ∈ sortedUnion f1 f2 := by
    rcases max_choice f1.headI f2.headI with hc | hc
    · rw [hc]; exact mem_sortedUnion.2 (Or.inl (headI_mem h10))
    · rw [hc]; exact mem_sortedUnion.2 (Or.inr (headI_mem h20))
  have hmem_max : min (f1.getLastD 0) (f2.getLastD 0) ∈ sortedUnion f1 f2 := by
    rcases min_choice (f1.getLastD 0) (f2.getLastD 0) with hc | hc
    · rw [hc]; exact mem_sortedUnion.2 (Or.inl (getLastD_mem 0 h10))
    · rw [hc]; exact mem_sortedUnion.2 (Or.inr (getLastD_mem 0 h20))
  exact slice_eq_filter_lt (sortedUnion_sorted f1 f2) hmem_min hmem_max hov

theorem opGrid_eq_filter {f1 f2 : List ℚ} (h10 : f1 ≠ []) (h20 : f2 ≠ [])
    (hov : max f1.headI f2.headI ≤ min (f1.getLastD 0) (f2.getLastD 0)) :
    opGrid f1 f2 = (sortedUnion f1 f2).filter
      (fun x => max f1.headI f2.headI ≤ x ∧ x ≤ min (f1.getLastD 0) (f2.getLastD 0)) := by
  have hmem_min : max f1.headI f2.headI ∈ sortedUnion f1 f2 := by
    rcases max_choice f1.headI f2.headI with hc | hc
    · rw [hc]; exact mem_sortedUnion.2 (Or.inl (headI_mem h10))
    · rw [hc]; exact mem_sortedUnion.2 (Or.inr (headI_mem h20))
  have hmem_max : min (f1.getLastD 0) (f2.getLastD 0) ∈ sortedUnion f1 f2 := by
    rcases min_choice (f1.getLastD 0) (f2.getLastD 0) with hc | hc
    · rw [hc]; exact mem_sortedUnion.2 (Or.inl (getLastD_mem 0 h10))
    · rw [hc]; exact mem_sortedUnion.2 (Or.inr (getLastD_mem 0 h20))
  exact slice_eq_filter_le (sortedUnion_sorted f1 f2) hmem_min hmem_max hov

/-- Claim C2: `dot` on two plain sweeps with overlapping frequency ranges
returns the sweep over the sorted union of both sample grids restricted to
`[max(firstStarts), min(lastEnds))` — upper endpoint excluded — whose
sample at each grid frequency is the matrix product of the interpolated
operands, tagged with the first operand's type and impedance. -/
theorem dot_spec {K : Type} [Field K] {n : ℕ} (a b : NPort n K)
    (ha : a.freqs.Sorted (· < ·)) (hb : b.freqs.Sorted (· < ·))
    (ha0 : a.freqs ≠ []) (hb0 : b.freqs ≠ [])
    (hzc : z0consistent a.ptype a.z0)
    (hov : max a.freqs.headI b.freqs.headI <
      min (a.freqs.getLastD 0) (b.freqs.getLastD 0)) :
    ∃ r, dot a b = Except.ok r ∧
      r.freqs = (sortedUnion a.freqs b.freqs).filter
        (fun x => max a.freqs.headI b.freqs.headI ≤ x ∧
          x < min (a.freqs.getLastD 0) (b.freqs.getLastD 0)) ∧
      r.mats = r.freqs.map (fun x => a.at1 x * b.at1 x) ∧
      r.ptype = a.ptype ∧ r.z0 = a.z0 := by
  have hgrid := merge_freqs_eq_filter ha0 hb0 (le_of_lt hov)
  have hne : merge_freqs a.freqs b.freqs ≠ [] := by
    rw [hgrid]
    intro hemp
    have hm : max a.freqs.headI b.freqs.headI ∈
        (sortedUnion a.freqs b.freqs).filter
          (fun x => max a.freqs.headI b.freqs.headI ≤ x ∧
            x < min (a.freqs.getLastD 0) (b.freqs.getLastD 0)) := by
      refine List.mem_filter.2 ⟨?_, by
        simp only [decide_eq_true_eq]; exact ⟨le_refl _, hov⟩⟩
      rcases max_choice a.freqs.headI b.freqs.headI with hc | hc
      · rw [hc]; exact mem_sortedUnion.2 (Or.inl (headI_mem ha0))
      · rw [hc]; exact mem_sortedUnion.2 (Or.inr (headI_mem hb0))
    rw [hemp] at hm
    cases hm
  refine ⟨⟨merge_freqs a.freqs b.freqs,
    List.zipWith (· * ·) ((merge_freqs a.freqs b.freqs).map a.at1)
      ((merge_freqs a.freqs b.freqs).map b.at1), a.ptype, a.z0⟩, ?_, hgrid, ?_, rfl, rfl⟩
  · rw [dot]
    refine mkNPort_ok ?_ ?_ hzc
    · rw [List.length_zipWith, List.length_map, List.length_map, Nat.min_self]
    · intro hemp
      apply hne
      have := congrArg List.length hemp
      rw [List.length_zipWith, List.length_map, List.length_map, Nat.min_self] at this
      exact List.length_eq_zero.1 this
  · show List.zipWith _ _ _ = _
    rw [List.zipWith_map, List.zipWith_same]

/-- Claim C3: `+` on two sweeps of equal type and impedance produces a
sweep over the sorted union of both sample grids restricted to the overlap
interval with the upper endpoint included, each sample the pointwise sum of
the interpolated operands; concretely, grids `[1,2,3,4]` and `[2,3,4,5]`
align to exactly `[2,3,4]`. -/
theorem add_aligns {K : Type} [Field K] [DecidableEq K] {n : ℕ} :
    (∀ a b : NPort n K,
      a.freqs.Sorted (· < ·) → b.freqs.Sorted (· < ·) →
      a.freqs ≠ [] → b.freqs ≠ [] →
      a.ptype = b.ptype → a.z0 = b.z0 → z0consistent a.ptype a.z0 →
      max a.freqs.headI b.freqs.headI ≤
        min (a.freqs.getLastD 0) (b.freqs.getLastD 0) →
      ∃ r, npAdd a b = Except.ok r ∧
        r.freqs = (sortedUnion a.freqs b.freqs).filter
          (fun x => max a.freqs.headI b.freqs.headI ≤ x ∧
            x ≤ min (a.freqs.getLastD 0) (b.freqs.getLastD 0)) ∧
        r.mats = r.freqs.map (fun x => a.at1 x + b.at1 x) ∧
        r.ptype = a.ptype ∧ r.z0 = a.z0) ∧
    (∀ a b : NPort n K,
      a.freqs = [1, 2, 3, 4] → b.freqs = [2, 3, 4, 5] →
      a.ptype = b.ptype → a.z0 = b.z0 → z0consistent a.ptype a.z0 →
      ∃ r, npAdd a b = Except.ok r ∧ r.freqs = [2, 3, 4]) := by
  have main : ∀ a b : NPort n K,
      a.freqs ≠ [] → b.freqs ≠ [] →
      a.ptype = b.ptype → a.z0 = b.z0 → z0consistent a.ptype a.z0 →
      max a.freqs.headI b.freqs.headI ≤
        min (a.freqs.getLastD 0) (b.freqs.getLastD 0) →
      ∃ r, npAdd a b = Except.ok r ∧
        r.freqs = (sortedUnion a.freqs b.freqs).filter
          (fun x => max a.freqs.headI b.freqs.headI ≤ x ∧
            x ≤ min (a.freqs.getLastD 0) (b.freqs.getLastD 0)) ∧
        r.mats = r.freqs.map (fun x => a.at1 x + b.at1 x) ∧
        r.ptype = a.ptype ∧ r.z0 = a.z0 := by
    intro a b ha0 hb0 hty hz hzc hov
    have hgrid := opGrid_eq_filter ha0 hb0 hov
    have hmm : max a.freqs.headI b.freqs.headI ∈ opGrid a.freqs b.freqs := by
      rw [hgrid]
      refine List.mem_filter.2 ⟨?_, by
        simp only [decide_eq_true_eq]; exact ⟨le_refl _, hov⟩⟩
      rcases max_choice a.freqs.headI b.freqs.headI with hc | hc
      · rw [hc]; exact mem_sortedUnion.2 (Or.inl (headI_mem ha0))
      · rw [hc]; exact mem_sortedUnion.2 (Or.inr (headI_mem hb0))
    have hne : opGrid a.freqs b.freqs ≠ [] := List.ne_nil_of_mem hmm
    refine ⟨⟨opGrid a.freqs b.freqs,
      List.zipWith (· + ·) ((opGrid a.freqs b.freqs).map a.at1)
        ((opGrid a.freqs b.freqs).map b.at1), a.ptype, a.z0⟩, ?_, hgrid, ?_, rfl, rfl⟩
    · rw [npAdd, npOp, if_pos hty.symm, if_neg (by simp [hz])]
      refine mkNPort_ok ?_ ?_ hzc
      · rw [List.length_zipWith, List.length_map, List.length_map, Nat.min_self]
      · intro hemp
        apply hne
        have := congrArg List.length hemp
        rw [List.length_zipWith, List.length_map, List.length_map, Nat.min_self] at this
        exact List.length_eq_zero.1 this
    · show List.zipWith _ _ _ = _
      rw [List.zipWith_map, List.zipWith_same]
  refine ⟨fun a b _ _ ha0 hb0 hty hz hzc hov => main a b ha0 hb0 hty hz hzc hov,
    fun a b hfa hfb hty hz hzc => ?_⟩
  obtain ⟨r, hr, hfr, -⟩ := main a b (by rw [hfa]; simp) (by rw [hfb]; simp)
    hty hz hzc (by rw [hfa, hfb]; norm_num)
  refine ⟨r, hr, ?_⟩
  rw [hfr, hfa, hfb]
  decide

/-- Claim C4: any of the four injected arithmetic operators on two sweeps
of the same type but different reference impedances fails with the
impedance-mismatch error, before any alignment or interpolation — no
result is produced. -/
theorem op_z0_mismatch {K : Type} [Field K] [DecidableEq K] {n : ℕ}
    (a b : NPort n K) (hty : a.ptype = b.ptype) (hz : a.z0 ≠ b.z0) :
    npAdd a b = Except.error "operands have different Z0" ∧
    npSub a b = Except.error "operands have different Z0" ∧
    npMul a b = Except.error "operands have different Z0" ∧
    npDiv a b = Except.error "operands have different Z0" := by
  have h : ∀ f, npOp f a b = Except.error "operands have different Z0" := by
    intro f
    rw [npOp, if_pos hty.symm, if_pos (Ne.symm hz)]
  exact ⟨h _, h _, h _, h _⟩

theorem dot_spec_witness :
    ∃ r, dot (NPort.mk [0, 2] [0, 0] PType.Z none)
        (NPort.mk [1, 3] [(0 : Matrix (Fin 1) (Fin 1) ℚ), 0] PType.Z none) =
      Except.ok r ∧ r.freqs = [1] := by
  obtain ⟨r, h1, h2, -⟩ := dot_spec (NPort.mk [0, 2] [0, 0] PType.Z none)
    (NPort.mk [1, 3] [(0 : Matrix (Fin 1) (Fin 1) ℚ), 0] PType.Z none)
    (by simp) (by simp) (by simp) (by simp) (by simp [z0consistent]) (by norm_num)
  refine ⟨r, h1, ?_⟩
  rw [h2]
  decide

theorem add_aligns_witness :
    ∃ r, npAdd (NPort.mk [1, 2, 3, 4] [0, 0, 0, 0] PType.Z none)
        (NPort.mk [2, 3, 4, 5] [(0 : Matrix (Fin 1) (Fin 1) ℚ), 0, 0, 0] PType.Z none) =
      Except.ok r ∧ r.freqs = [2, 3, 4] :=
  (add_aligns (K := ℚ) (n := 1)).2
    (NPort.mk [1, 2, 3, 4] [0, 0, 0, 0] PType.Z none)
    (NPort.mk [2, 3, 4, 5] [(0 : Matrix (Fin 1) (Fin 1) ℚ), 0, 0, 0] PType.Z none)
    rfl rfl rfl rfl (by simp [z0consistent])

theorem op_z0_mismatch_witness :
    npAdd (n := 1) ⟨[0], [0], PType.S, some (50 : ℚ)⟩ ⟨[0], [0], PType.S, some 75⟩ =
      Except.error "operands have different Z0" ∧
    npSub (n := 1) ⟨[0], [0], PType.S, some (50 : ℚ)⟩ ⟨[0], [0], PType.S, some 75⟩ =
      Except.error "operands have different Z0" ∧
    npMul (n := 1) ⟨[0], [0], PType.S, some (50 : ℚ)⟩ ⟨[0], [0], PType.S, some 75⟩ =
      Except.error "operands have different Z0" ∧
    npDiv (n := 1) ⟨[0], [0], PType.S, some (50 : ℚ)⟩ ⟨[0], [0], PType.S, some 75⟩ =
      Except.error "operands have different Z0" :=
  op_z0_mismatch _ _ rfl (by simp)

theorem mkNPort_mk {K : Type} [Field K] {n : ℕ} {freqs : List ℚ}
    {mats : List (Matrix (Fin n) (Fin n) K)} {t : PType} {z z' : Option K}
    (hlen : freqs.length = mats.length) (hne : mats ≠ [])
    (hz : z0test t z = Except.ok z') :
    mkNPort freqs mats t z = Except.ok ⟨freqs, mats, t, z'⟩ := by
  unfold mkNPort
  rw [if_neg (by simp [hlen])]
  cases mats with
  | nil => exact absurd rfl hne
  | cons m ms =>
    rw [hz]
    rfl

/-- Claim C9 (code bug): `NPort.add` never returns an extended sweep — the
line `np.insert(self.matrices, index, matrix, 0)` reads the attribute
`self.matrices`, which no class in the hierarchy defines, so Python raises
`AttributeError` on every call; here evaluated at a concrete sweep,
frequency and sample matrix. -/
theorem add_attribute_error :
    NPort.add (n := 1) ⟨[1, 2], [0, 0], PType.Z, (none : Option ℚ)⟩ (3 / 2) !![(1 : ℚ) / 2] =
      Except.error "AttributeError: NPort object has no attribute matrices" := rfl

/-- Claim C10: `NPort.convert` hands the caller-supplied `z0` straight to
the sweep constructor instead of the per-sample resolved impedance; for an
S-typed sweep at impedance `w ≠ 50`, `convert(S)` with `z0` omitted leaves
every sample matrix unchanged (each per-sample conversion resolves to the
original impedance and is the identity) yet tags the sweep with the
constructor default 50, which no longer describes the samples. -/
theorem convert_sweep_default_tag {K : Type} [Field K] [DecidableEq K] {n : ℕ}
    (s : NPort n K) (w : K) (hty : s.ptype = PType.S) (hz : s.z0 = some w)
    (hw : w ≠ 50) (hlen : s.freqs.length = s.mats.length) (hne : s.mats ≠ []) :
    NPort.convert s PType.S none = Except.ok ⟨s.freqs, s.mats, PType.S, some 50⟩ ∧
    some (50 : K) ≠ s.z0 := by
  constructor
  · have hsample : ∀ m ∈ s.mats,
        NPortMatrix.convert ⟨m, PType.S, some w⟩ PType.S none =
          Except.ok ⟨m, PType.S, some w⟩ := by
      intro m _
      have h1 : NPortMatrix.convert (⟨m, PType.S, some w⟩ : NPortMatrix n K) PType.S none =
          if (some w : Option K) = some w then Except.ok ⟨m, PType.S, some w⟩
          else ((expectZ0 (some w)).bind fun v =>
            NPortMatrix.renormalize (⟨m, PType.S, some w⟩ : NPortMatrix n K) v) := rfl
      rw [h1, if_pos rfl]
    simp only [NPort.convert, hty, hz]
    rw [mapM_ok_of_forall hsample]
    show mkNPort s.freqs ((s.mats.map fun m =>
      (⟨m, PType.S, some w⟩ : NPortMatrix n K)).map fun N => N.mat) PType.S none = _
    rw [List.map_map]
    have hid : ((fun (N : NPortMatrix n K) => N.mat) ∘ fun m =>
        (⟨m, PType.S, some w⟩ : NPortMatrix n K)) = id := rfl
    rw [hid, List.map_id]
    exact mkNPort_mk hlen hne rfl
  · rw [hz]
    intro hc
    exact hw (Option.some_injective K hc).symm

theorem convert_sweep_default_tag_witness :
    NPort.convert (n := 1) ⟨[1], [0], PType.S, some (75 : ℚ)⟩ PType.S none =
      Except.ok ⟨[1], [0], PType.S, some 50⟩ ∧
    some (50 : ℚ) ≠ (NPort.mk (n := 1) [1] [0] PType.S (some (75 : ℚ))).z0 :=
  convert_sweep_default_tag ⟨[1], [0], PType.S, some 75⟩ 75 rfl rfl (by norm_num)
    rfl (by simp)

theorem two_smul_inv_inv {K : Type} [Field K] [CharZero K] {n : ℕ}
    (A : Matrix (Fin n) (Fin n) K) (hA : IsUnit A.det) :
    ((2 : K) • A⁻¹)⁻¹ = (2⁻¹ : K) • A := by
  apply Matrix.inv_eq_right_inv
  rw [Matrix.smul_mul, Matrix.mul_smul, Matrix.nonsing_inv_mul A hA, smul_smul]
  rw [mul_inv_cancel₀ (two_ne_zero), one_smul]

/-- Claim C1: converting a Z-typed matrix to S (at a fixed `z0`) and back to
Z returns the original matrix, provided the intermediate matrix `I + Z/z0`
is invertible; likewise Y to S to Y via `I + Y*z0`. -/
theorem convert_roundtrip {K : Type} [Field K] [CharZero K] [DecidableEq K] {n : ℕ}
    (M : Matrix (Fin n) (Fin n) K) (z0 : K) (hz : z0 ≠ 0)
    (hA : IsUnit (1 + z0⁻¹ • M).det) (hB : IsUnit (1 + z0 • M).det) :
    (NPortMatrix.convert ⟨M, PType.Z, none⟩ PType.S (some z0)).bind
      (fun N => N.convert PType.Z none) = Except.ok ⟨M, PType.Z, none⟩ ∧
    (NPortMatrix.convert ⟨M, PType.Y, none⟩ PType.S (some z0)).bind
      (fun N => N.convert PType.Y none) = Except.ok ⟨M, PType.Y, none⟩ := by
  constructor
  · have h1 : NPortMatrix.convert (K := K) ⟨M, PType.Z, none⟩ PType.S (some z0) =
        Except.ok ⟨1 - (2 : K) • minv (1 + z0⁻¹ • M), PType.S, some z0⟩ := rfl
    rw [h1]
    show NPortMatrix.convert (K := K)
        ⟨1 - (2 : K) • minv (1 + z0⁻¹ • M), PType.S, some z0⟩ PType.Z none = _
    have h2 : NPortMatrix.convert (K := K)
        ⟨1 - (2 : K) • minv (1 + z0⁻¹ • M), PType.S, some z0⟩ PType.Z none =
        Except.ok ⟨z0 • ((2 : K) • minv (1 - (1 - (2 : K) • minv (1 + z0⁻¹ • M))) - 1),
          PType.Z, none⟩ := rfl
    rw [h2]
    have hmat : z0 • ((2 : K) • minv (1 - (1 - (2 : K) • minv (1 + z0⁻¹ • M))) - 1) = M := by
      rw [minv_eq_inv, sub_sub_cancel, minv_eq_inv, two_smul_inv_inv _ hA,
        smul_smul, mul_inv_cancel₀ (two_ne_zero), one_smul, add_sub_cancel_left,
        smul_smul, mul_inv_cancel₀ hz, one_smul]
    rw [hmat]
  · have h1 : NPortMatrix.convert (K := K) ⟨M, PType.Y, none⟩ PType.S (some z0) =
        Except.ok ⟨(2 : K) • minv (1 + z0 • M) - 1, PType.S, some z0⟩ := rfl
    rw [h1]
    show NPortMatrix.convert (K := K)
        ⟨(2 : K) • minv (1 + z0 • M) - 1, PType.S, some z0⟩ PType.Y none = _
    have h2 : NPortMatrix.convert (K := K)
        ⟨(2 : K) • minv (1 + z0 • M) - 1, PType.S, some z0⟩ PType.Y none =
        Except.ok ⟨z0⁻¹ • ((2 : K) • minv (1 + ((2 : K) • minv (1 + z0 • M) - 1)) - 1),
          PType.Y, none⟩ := rfl
    rw [h2]
    have hmat : z0⁻¹ • ((2 : K) • minv (1 + ((2 : K) • minv (1 + z0 • M) - 1)) - 1) = M := by
      rw [minv_eq_inv, add_sub_cancel, minv_eq_inv, two_smul_inv_inv _ hB,
        smul_smul, mul_inv_cancel₀ (two_ne_zero), one_smul, add_sub_cancel_left,
        smul_smul, inv_mul_cancel₀ hz, one_smul]
    rw [hmat]

theorem convert_roundtrip_witness :
    (NPortMatrix.convert ⟨!![(1 : ℚ)], PType.Z, none⟩ PType.S (some 1)).bind
      (fun N => N.convert PType.Z none) = Except.ok ⟨!![(1 : ℚ)], PType.Z, none⟩ ∧
    (NPortMatrix.convert ⟨!![(1 : ℚ)], PType.Y, none⟩ PType.S (some 1)).bind
      (fun N => N.convert PType.Y none) = Except.ok ⟨!![(1 : ℚ)], PType.Y, none⟩ :=
  convert_roundtrip !![(1 : ℚ)] 1 (by norm_num)
    (by simp [Matrix.det_fin_one])
    (by simp [Matrix.det_fin_one])

/-- Claim C5: on an S-typed matrix, `renormalize` to the current impedance
returns the identical value, a second application with the same `newZ0` is a
no-op, and for `newZ0 ≠ z0` the result is `(S - I*r)*(I - r*S)⁻¹` with
`r = (newZ0 - z0)/(newZ0 + z0)`, tagged with `newZ0`. -/
theorem renormalize_spec {K : Type} [Field K] [DecidableEq K] {n : ℕ}
    (M : NPortMatrix n K) (w z : K) (hty : M.ptype = PType.S) (hz0 : M.z0 = some w) :
    M.renormalize w = Except.ok M ∧
    (∀ N, M.renormalize z = Except.ok N → N.renormalize z = Except.ok N) ∧
    (z ≠ w → M.renormalize z = Except.ok
      ⟨(M.mat - ((z - w) / (z + w)) • 1) * (1 - ((z - w) / (z + w)) • M.mat)⁻¹,
        PType.S, some z⟩) := by
  refine ⟨?_, ?_, ?_⟩
  · rw [NPortMatrix.renormalize, if_neg (by rw [hty]; simp), if_pos (by rw [hz0])]
  · intro N hN
    by_cases hc : some z = M.z0
    · rw [NPortMatrix.renormalize, if_neg (by rw [hty]; simp), if_pos hc] at hN
      cases hN
      rw [NPortMatrix.renormalize, if_neg (by rw [hty]; simp), if_pos hc]
    · rw [NPortMatrix.renormalize, if_neg (by rw [hty]; simp), if_neg hc, hz0] at hN
      simp only [expectZ0, Except.bind, mkNPortMatrix, z0test, hty] at hN
      simp only [↓reduceIte, Except.map] at hN
      cases hN
      rw [NPortMatrix.renormalize]
      simp
  · intro hzw
    rw [NPortMatrix.renormalize, if_neg (by rw [hty]; simp),
      if_neg (by rw [hz0]; simp [hzw]), hz0]
    simp only [expectZ0, mkNPortMatrix, z0test, hty, minv_eq_inv, true_or, ↓reduceIte,
      Except.map]
    rfl

theorem renormalize_spec_witness :
    NPortMatrix.renormalize ⟨!![(0 : ℚ)], PType.S, some 50⟩ 50 =
      Except.ok ⟨!![(0 : ℚ)], PType.S, some 50⟩ ∧
    (∀ N, NPortMatrix.renormalize ⟨!![(0 : ℚ)], PType.S, some 50⟩ 75 = Except.ok N →
      N.renormalize 75 = Except.ok N) ∧
    ((75 : ℚ) ≠ 50 → NPortMatrix.renormalize ⟨!![(0 : ℚ)], PType.S, some 50⟩ 75 =
      Except.ok ⟨(!![(0 : ℚ)] - (((75 : ℚ) - 50) / ((75 : ℚ) + 50)) • 1) *
        (1 - (((75 : ℚ) - 50) / ((75 : ℚ) + 50)) • !![(0 : ℚ)])⁻¹, PType.S, some 75⟩) :=
  renormalize_spec ⟨!![(0 : ℚ)], PType.S, some 50⟩ 50 75 rfl rfl

end Nport
